import Mathlib

/-!
Verification model of the `scheduler` package (a wrapper over robfig/cron v3).

The definitions below are a shallow embedding of:
  * `time.Duration.String` and `time.ParseDuration` from the Go standard
    library (the scheduler builds `"@every " + interval.String()` and the
    cron library parses it back with `time.ParseDuration`);
  * the robfig/cron v3 standard spec parser (descriptors, 5-field specs),
    `ConstantDelaySchedule`, entry bookkeeping, and the `Recover` /
    `SkipIfStillRunning` job wrappers;
  * the `Scheduler` type of the package under verification and its methods
    `New`, `Every`, `Cron`, `Remove`, `Jobs`, `Start`, `Stop`, `Running`,
    `baseContext`, `jobContext`, and the `WithBaseContext`, `WithLocation`,
    `WithSkipIfRunning` options.

Durations and instants are modelled as `Int` nanosecond counts (Go's
`time.Duration` is an `int64`; no claim exercises values outside that range).
Go maps are modelled as association lists with overwrite-on-insert; map
iteration order is unspecified in Go, the model uses insertion order and no
theorem depends on the order.
-/

/-- One decimal digit as a string. -/
def digitStr (d : Nat) : String :=
  (Char.ofNat (48 + d % 10)).toString

/-- Go `time.fmtFrac`: the fractional part of `v` to `prec` digits with
trailing zeros (and a then-pointless decimal point) omitted.  Returns the
fraction text (empty or starting with a dot) and `v / 10^prec`. -/
def fmtFrac : Nat → Nat → Bool → String → String × Nat
  | 0, v, print, acc => (if print then "." ++ acc else "", v)
  | prec + 1, v, print, acc =>
    let digit := v % 10
    let print2 := print || digit != 0
    fmtFrac prec (v / 10) print2 (if print2 then digitStr digit ++ acc else acc)

/-- Go `time.Duration.String` on an `int64` nanosecond count. -/
def fmtDuration (d : Int) : String :=
  let u := d.natAbs
  let core :=
    if u < 1000000000 then
      if u = 0 then "0s"
      else if u < 1000 then
        toString u ++ "ns"
      else if u < 1000000 then
        let (frac, v) := fmtFrac 3 u false ""
        toString v ++ frac ++ "µs"
      else
        let (frac, v) := fmtFrac 6 u false ""
        toString v ++ frac ++ "ms"
    else
      let (frac, v) := fmtFrac 9 u false ""
      let secs := toString (v % 60) ++ frac ++ "s"
      let m := v / 60
      let withMin := if m > 0 then toString (m % 60) ++ "m" ++ secs else secs
      let h := m / 60
      if m > 0 && h > 0 then toString h ++ "h" ++ withMin else withMin
  if d < 0 then "-" ++ core else core

/-- Go `time.leadingInt`: consume leading decimal digits; errors on overflow
past `2^63`. -/
def leadingInt : List Char → Nat → Except Unit (Nat × List Char)
  | [], x => .ok (x, [])
  | c :: rest, x =>
    if '0' ≤ c ∧ c ≤ '9' then
      if x > 2 ^ 63 / 10 then .error ()
      else
        let x2 := x * 10 + (c.toNat - 48)
        if x2 > 2 ^ 63 then .error ()
        else leadingInt rest x2
    else .ok (x, c :: rest)

/-- Go `time.leadingFraction`: consume digits after a decimal point,
returning the value, the scale `10^digits`, and the rest.  Digits beyond the
overflow guard are consumed but ignored, as in Go. -/
def leadingFraction : List Char → Nat → Nat → Bool → Nat × Nat × List Char
  | [], x, scale, _ => (x, scale, [])
  | c :: rest, x, scale, overflow =>
    if '0' ≤ c ∧ c ≤ '9' then
      if overflow then leadingFraction rest x scale true
      else if x > (2 ^ 63 - 1) / 10 then leadingFraction rest x scale true
      else
        let y := x * 10 + (c.toNat - 48)
        if y > 2 ^ 63 then leadingFraction rest x scale true
        else leadingFraction rest y (scale * 10) false
    else (x, scale, c :: rest)

/-- Units accepted by Go `time.ParseDuration`, in nanoseconds. -/
def unitValue (u : String) : Option Nat :=
  if u = "ns" then some 1
  else if u = "us" then some 1000
  else if u = "µs" then some 1000
  else if u = "μs" then some 1000
  else if u = "ms" then some 1000000
  else if u = "s" then some 1000000000
  else if u = "m" then some 60000000000
  else if u = "h" then some 3600000000000
  else none

/-- Is a character a digit or a dot (unit boundary test in `ParseDuration`)? -/
def isDigitOrDot (c : Char) : Bool :=
  c = '.' || ('0' ≤ c && c ≤ '9')

/-- One `[0-9]*(\.[0-9]*)?unit` component of a Go duration literal.
Returns the accumulated nanosecond value and the remaining characters.
Go computes the fractional contribution as
`uint64(float64(f) * (float64(unit) / scale))`; the model uses the exact
rational value `f * unit / scale` (they agree on every duration the
scheduler ever formats, which have no fractional digits). -/
def parseDurationStep (cs : List Char) (d : Nat) : Except String (Nat × List Char) := do
  match cs with
  | [] => .error "invalid duration"
  | c :: _ =>
    if !isDigitOrDot c then .error "invalid duration"
    else
      match leadingInt cs 0 with
      | .error _ => .error "invalid duration"
      | .ok (v, s1) =>
        let pre := s1.length != cs.length
        let (f, scale, s2, post) :=
          match s1 with
          | '.' :: tail =>
            let (f, scale, rest) := leadingFraction tail 0 1 false
            (f, scale, rest, rest.length != tail.length)
          | _ => (0, 1, s1, false)
        if !pre && !post then .error "invalid duration"
        else
          let uChars := s2.takeWhile (fun c => !isDigitOrDot c)
          let s3 := s2.dropWhile (fun c => !isDigitOrDot c)
          if uChars.length = 0 then .error "missing unit in duration"
          else
            match unitValue (String.mk uChars) with
            | none => .error "unknown unit in duration"
            | some unit =>
              if v > 2 ^ 63 / unit then .error "invalid duration"
              else
                let v2 := v * unit + f * unit / scale
                if v2 > 2 ^ 63 then .error "invalid duration"
                else
                  let d2 := d + v2
                  if d2 > 2 ^ 63 then .error "invalid duration"
                  else .ok (d2, s3)

/-- Iterate `parseDurationStep` over the remaining input (fuel is the input
length: every step consumes at least one character). -/
def parseDurationLoop : Nat → List Char → Nat → Except String Nat
  | 0, cs, d => if cs.isEmpty then .ok d else .error "invalid duration"
  | fuel + 1, cs, d =>
    if cs.isEmpty then .ok d
    else
      match parseDurationStep cs d with
      | .error e => .error e
      | .ok (d2, rest) => parseDurationLoop fuel rest d2

/-- Go `time.ParseDuration`. -/
def parseDuration (s : String) : Except String Int :=
  let cs := s.toList
  let (neg, cs1) :=
    match cs with
    | '-' :: rest => (true, rest)
    | '+' :: rest => (false, rest)
    | _ => (false, cs)
  if cs1 = ['0'] then .ok 0
  else if cs1.isEmpty then .error "invalid duration"
  else
    match parseDurationLoop cs1.length cs1 0 with
    | .error e => .error e
    | .ok d =>
      if neg then .ok (-(d : Int))
      else if d > 2 ^ 63 - 1 then .error "invalid duration"
      else .ok (d : Int)

/-- Go `strings.Split` for a one-character separator (structural, so that
concrete specs evaluate by kernel reduction). -/
def splitOnChar (sep : Char) : List Char → List (List Char)
  | [] => [[]]
  | c :: rest =>
    match splitOnChar sep rest with
    | [] => [[c]]
    | g :: gs => if c = sep then [] :: g :: gs else (c :: g) :: gs

/-- Split at every character satisfying `p` (empty pieces kept). -/
def splitWhenChar (p : Char → Bool) : List Char → List (List Char)
  | [] => [[]]
  | c :: rest =>
    match splitWhenChar p rest with
    | [] => [[c]]
    | g :: gs => if p c then [] :: g :: gs else (c :: g) :: gs

/-- Is `p` a leading piece of the character list? -/
def hasPfx : List Char → List Char → Bool
  | [], _ => true
  | _ :: _, [] => false
  | p :: ps, c :: cs => p = c && hasPfx ps cs

/-- Go `unicode.IsSpace`: the White_Space code points — `\t \n \v \f \r`,
space, U+0085, U+00A0, U+1680, U+2000..U+200A, U+2028, U+2029, U+202F,
U+205F, U+3000. -/
def goIsSpace (c : Char) : Bool :=
  let n := c.toNat
  decide ((9 ≤ n ∧ n ≤ 13) ∨ n = 32 ∨ n = 0x85 ∨ n = 0xA0 ∨ n = 0x1680 ∨
    (0x2000 ≤ n ∧ n ≤ 0x200A) ∨ n = 0x2028 ∨ n = 0x2029 ∨ n = 0x202F ∨
    n = 0x205F ∨ n = 0x3000)

/-- Go `strconv.Atoi` (64-bit): optional sign, one or more digits, range
checked against `int64`. -/
def goAtoi (s : String) : Except String Int :=
  let cs := s.toList
  let (neg, ds) :=
    match cs with
    | '-' :: rest => (true, rest)
    | '+' :: rest => (false, rest)
    | _ => (false, cs)
  if ds.isEmpty then .error ("failed to parse int from " ++ s)
  else if ds.all (fun c => '0' ≤ c && c ≤ '9') then
    let n : Nat := ds.foldl (fun a c => a * 10 + (c.toNat - 48)) 0
    let v : Int := if neg then -(n : Int) else (n : Int)
    if v < -(2 ^ 63) ∨ 2 ^ 63 - 1 < v then .error ("failed to parse int from " ++ s)
    else .ok v
  else .error ("failed to parse int from " ++ s)

/-- robfig/cron `mustParseInt`: a non-negative integer. -/
def mustParseInt (s : String) : Except String Nat :=
  match goAtoi s with
  | .error e => .error e
  | .ok v => if v < 0 then .error ("negative number not allowed: " ++ s) else .ok v.toNat

/-- Bounds of one cron field: inclusive range plus the accepted names. -/
structure Bounds where
  min : Nat
  max : Nat
  names : List (String × Nat)
deriving Repr

def minutesBounds : Bounds := ⟨0, 59, []⟩
def hoursBounds : Bounds := ⟨0, 23, []⟩
def domBounds : Bounds := ⟨1, 31, []⟩
def monthsBounds : Bounds :=
  ⟨1, 12, [("jan", 1), ("feb", 2), ("mar", 3), ("apr", 4), ("may", 5), ("jun", 6),
           ("jul", 7), ("aug", 8), ("sep", 9), ("oct", 10), ("nov", 11), ("dec", 12)]⟩
def dowBounds : Bounds :=
  ⟨0, 6, [("sun", 0), ("mon", 1), ("tue", 2), ("wed", 3), ("thu", 4), ("fri", 5), ("sat", 6)]⟩

/-- robfig/cron `starBit`: top bit of the 64-bit field mask. -/
def starBit : Nat := 2 ^ 63

/-- Truncate to 64 bits (the field masks are Go `uint64` values). -/
def u64 (n : Nat) : Nat := n % 2 ^ 64

/-- robfig/cron `parseIntOrName`. -/
def parseIntOrName (expr : String) (names : List (String × Nat)) : Except String Nat :=
  match names.lookup (String.mk (expr.toList.map Char.toLower)) with
  | some v => .ok v
  | none => mustParseInt expr

/-- Stepping loop of robfig/cron `getBits` for `step ≠ 1`. -/
def getBitsLoop (max step : Nat) : Nat → Nat → Nat → Nat
  | 0, _, acc => acc
  | fuel + 1, i, acc =>
    if i ≤ max then getBitsLoop max step fuel (i + step) (acc ||| (1 <<< i)) else acc

/-- robfig/cron `getBits`: bits `min`..`max` with the given step. -/
def getBits (min max step : Nat) : Nat :=
  if step = 1 then
    ((2 ^ 64 - 1) - u64 ((2 ^ 64 - 1) <<< (max + 1))) &&& u64 ((2 ^ 64 - 1) <<< min)
  else getBitsLoop max step (max + 1) min 0

/-- robfig/cron `all`: the full range of a field, with the star bit set. -/
def allBits (b : Bounds) : Nat := getBits b.min b.max 1 ||| starBit

/-- robfig/cron `getRange`: one `expr` such as `3`, `7-11`, `*`, `*/2`,
`7-11/3`, with bounds checking. -/
def getRange (expr : String) (b : Bounds) : Except String Nat := do
  let rangeAndStep := (splitOnChar '/' expr.toList).map String.mk
  let lowAndHigh := (splitOnChar '-' (rangeAndStep.headD "").toList).map String.mk
  let singleDigit := lowAndHigh.length = 1
  let (start, stop, extra) ←
    match lowAndHigh with
    | [] => Except.error "impossible: splitOn returns a nonempty list"
    | first :: restLH =>
      if first = "*" ∨ first = "?" then
        Except.ok (b.min, b.max, starBit)
      else
        match parseIntOrName first b.names with
        | .error e => Except.error e
        | .ok start =>
          match restLH with
          | [] => Except.ok (start, start, (0 : Nat))
          | [hi] =>
            match parseIntOrName hi b.names with
            | .error e => Except.error e
            | .ok stop => Except.ok (start, stop, (0 : Nat))
          | _ => Except.error ("too many hyphens: " ++ expr)
  let (stop, step, extra) ←
    match rangeAndStep with
    | [_] => Except.ok (stop, (1 : Nat), extra)
    | [_, stepStr] =>
      match mustParseInt stepStr with
      | .error e => Except.error e
      | .ok step =>
        let stop := if singleDigit then b.max else stop
        Except.ok (stop, step, if step > 1 then 0 else extra)
    | _ => Except.error ("too many slashes: " ++ expr)
  if start < b.min then Except.error ("beginning of range below minimum: " ++ expr)
  else if stop > b.max then Except.error ("end of range above maximum: " ++ expr)
  else if start > stop then Except.error ("beginning of range after end: " ++ expr)
  else if step = 0 then Except.error ("step of range should be a positive number: " ++ expr)
  else Except.ok (getBits start stop step ||| extra)

/-- robfig/cron `getField`: comma-separated ranges OR-ed together
(`strings.FieldsFunc` drops empty pieces). -/
def getField (field : String) (b : Bounds) : Except String Nat :=
  (((splitOnChar ',' field.toList).map String.mk).filter (· ≠ "")).foldl
    (fun acc expr =>
      match acc with
      | .error e => .error e
      | .ok bits =>
        match getRange expr b with
        | .error e => .error e
        | .ok bit => .ok (bits ||| bit))
    (.ok 0)

/-- robfig/cron `SpecSchedule`: one 64-bit mask per field plus the location
name (the IANA zone database is environment state; the model carries the
name and evaluates calendar arithmetic in fixed UTC offsets). -/
structure SpecSched where
  second : Nat
  minute : Nat
  hour : Nat
  dom : Nat
  month : Nat
  dow : Nat
  loc : String
deriving DecidableEq, Repr

/-- A parsed robfig/cron schedule: either a `ConstantDelaySchedule`
(nanosecond delay) or a `SpecSchedule`. -/
inductive CronSched
  | const (delay : Int)
  | spec (sp : SpecSched)
deriving DecidableEq, Repr

/-- robfig/cron `Every`/`ConstantDelaySchedule`: delays under a second are
rounded up to one second, and fractional seconds are truncated. -/
def cronEvery (d : Int) : Int :=
  let d2 := if d < 1000000000 then 1000000000 else d
  d2 - d2 % 1000000000

/-- robfig/cron `parseDescriptor`: `@`-shorthands, including `@every`. -/
def parseDescriptor (spec : String) (loc : String) : Except String CronSched :=
  if spec = "@yearly" ∨ spec = "@annually" then
    .ok (.spec ⟨1, 1, 1, 1 <<< 1, 1 <<< 1, allBits dowBounds, loc⟩)
  else if spec = "@monthly" then
    .ok (.spec ⟨1, 1, 1, 1 <<< 1, allBits monthsBounds, allBits dowBounds, loc⟩)
  else if spec = "@weekly" then
    .ok (.spec ⟨1, 1, 1, allBits domBounds, allBits monthsBounds, 1, loc⟩)
  else if spec = "@daily" ∨ spec = "@midnight" then
    .ok (.spec ⟨1, 1, 1, allBits domBounds, allBits monthsBounds, allBits dowBounds, loc⟩)
  else if spec = "@hourly" then
    .ok (.spec ⟨1, 1, allBits hoursBounds, allBits domBounds, allBits monthsBounds,
                allBits dowBounds, loc⟩)
  else if hasPfx ("@every ".toList) spec.toList then
    match parseDuration (String.mk (spec.toList.drop 7)) with
    | .ok d => .ok (.const (cronEvery d))
    | .error e => .error ("failed to parse duration: " ++ e)
  else .error ("unrecognized descriptor: " ++ spec)

/-- Go `strings.Fields`: split on runs of `unicode.IsSpace` characters. -/
def goFields (s : String) : List String :=
  ((splitWhenChar goIsSpace s.toList).map String.mk).filter (· ≠ "")

/-- Core of the robfig/cron standard parser (`cron.ParseStandard`, five
fields minute / hour / day-of-month / month / day-of-week, or a
descriptor), after any timezone head has been stripped, in location
`loc`. -/
def parseCronBody (loc : String) (spec : String) : Except String CronSched :=
  if hasPfx ("@".toList) spec.toList then parseDescriptor spec loc
  else
    match goFields spec with
    | [f1, f2, f3, f4, f5] => do
      let minute ← getField f1 minutesBounds
      let hour ← getField f2 hoursBounds
      let dom ← getField f3 domBounds
      let month ← getField f4 monthsBounds
      let dow ← getField f5 dowBounds
      Except.ok (.spec ⟨1, minute, hour, dom, month, dow, loc⟩)
    | fields =>
      Except.error ("expected exactly 5 fields, found " ++ toString fields.length)

/-- robfig/cron `ParseStandard` on an expression without a `TZ=`/`CRON_TZ=`
head — the only kind the scheduler itself ever builds (`"@every " +
interval.String()` starts with `@`).  Timezone-headed expressions go
through `cronParseFull`, which resolves the zone and can panic; the two
agree on every head-free expression. -/
def parseCronSpec (spec : String) : Except String CronSched :=
  if spec.length = 0 then .error "empty spec string"
  else parseCronBody "" spec

/-- Civil date (year, month 1..12, day 1..31) from days since 1970-01-01
(Howard Hinnant's algorithm, proleptic Gregorian). -/
def civilFromDays (z0 : Int) : Int × Nat × Nat :=
  let z := z0 + 719468
  let era := z.fdiv 146097
  let doe := (z - era * 146097).toNat
  let yoe := (doe - doe / 1460 + doe / 36524 - doe / 146096) / 365
  let doy := doe - (365 * yoe + yoe / 4 - yoe / 100)
  let mp := (5 * doy + 2) / 153
  let d := doy - (153 * mp + 2) / 5 + 1
  let m := if mp < 10 then mp + 3 else mp - 9
  let y := (yoe : Int) + era * 400 + (if m ≤ 2 then 1 else 0)
  (y, m, d)

/-- Does a `SpecSchedule` match the instant `t` (whole nanoseconds)?  Mirrors
robfig/cron's per-field bit tests, including `dayMatches` (day-of-month and
day-of-week combine with AND when either carries the star bit, OR otherwise). -/
def specMatchAt (sp : SpecSched) (t : Int) : Bool :=
  let sec := t.fdiv 1000000000
  let days := sec.fdiv 86400
  let sod := (sec - days * 86400).toNat
  let hour := sod / 3600
  let minute := sod % 3600 / 60
  let second := sod % 60
  let (_, m, d) := civilFromDays days
  let wd := ((days + 4).emod 7).toNat
  let domMatch := sp.dom.testBit d
  let dowMatch := sp.dow.testBit wd
  let dayOK :=
    if sp.dom.testBit 63 || sp.dow.testBit 63 then domMatch && dowMatch
    else domMatch || dowMatch
  sp.second.testBit second && sp.minute.testBit minute && sp.hour.testBit hour &&
    sp.month.testBit m && dayOK

/-- Second-by-second scan for the next matching instant. -/
def specNextLoop (sp : SpecSched) : Nat → Int → Int
  | 0, _ => 0
  | fuel + 1, t => if specMatchAt sp t then t else specNextLoop sp fuel (t + 1000000000)

/-- robfig/cron `SpecSchedule.Next`: the next matching instant strictly after
`t`, or the zero time when none exists within the year bound.  robfig jumps
by month/day/hour in the schedule's zone (honoring DST); the model scans
whole seconds at a fixed UTC offset — no claim observes a `SpecSchedule`
fire time, every concrete input in this file uses `@every` schedules. -/
def specNext (sp : SpecSched) (t : Int) : Int :=
  specNextLoop sp (5 * 366 * 86400) (t + (1000000000 - t.emod 1000000000))

/-- `Schedule.Next` of a parsed schedule.  For `ConstantDelaySchedule`:
`t.Add(Delay - t.Nanosecond())`. -/
def schedNext : CronSched → Int → Int
  | .const delay, t => t + delay - t.emod 1000000000
  | .spec sp, t => specNext sp t

/-- A job body: the work function, abstracted to whether the call returns or
raises a fault (the model's stand-in for a Go panic). -/
inductive Body
  | ret
  | panics (msg : String)
deriving DecidableEq, Repr

/-- The `cron.JobWrapper`s the scheduler installs with `cron.WithChain`. -/
inductive JobWrapper
  | recover
  | skipIfStillRunning
deriving DecidableEq, Repr

/-- A Go `context.Context` handle as the scheduler can observe it: the
background context, a caller-supplied base context, or a cancelable context
created by `Start` (tagged by generation). -/
inductive Ctx
  | background
  | external (id : Nat)
  | run (gen : Nat)
deriving DecidableEq, Repr

/-- `scheduler.Job`: the registry's metadata record. -/
structure Job where
  Name : String
  Schedule : String
  EntryID : Nat
deriving DecidableEq, Repr

/-- A robfig/cron entry: id, parsed schedule, next/prev fire times, the
per-entry in-progress flag used by `SkipIfStillRunning`, and the job body. -/
structure Entry where
  id : Nat
  sched : CronSched
  next : Int
  prev : Int
  running : Bool
  body : Body
deriving DecidableEq, Repr

/-- The state of the wrapped `cron.Cron` instance. -/
structure CronState where
  nextID : Nat
  entries : List Entry
  running : Bool
deriving DecidableEq, Repr

/-- `scheduler.Scheduler`.  `genCounter` is model bookkeeping that names the
next run context `Start` will allocate; `cancelled` records the generations
whose cancel function has been invoked. -/
structure Scheduler where
  cron : CronState
  location : String
  skipIfRunning : Bool
  chain : List JobWrapper
  jobs : List (String × Job)
  started : Bool
  baseCtx : Option Ctx
  runCtx : Option Ctx
  runCancel : Option Nat
  cancelled : List Nat
  genCounter : Nat
deriving DecidableEq, Repr

/-- Go map write `m[k] = v`: overwrite the key's binding. -/
def mapInsert (k : String) (v : Job) (m : List (String × Job)) : List (String × Job) :=
  (k, v) :: m.filter (fun kv => kv.1 ≠ k)

/-- Go map `delete(m, k)`. -/
def mapErase (k : String) (m : List (String × Job)) : List (String × Job) :=
  m.filter (fun kv => kv.1 ≠ k)

/-- A constructor option (`scheduler.Option`).  `withBaseContext none`
models `WithBaseContext(nil)`. -/
inductive SchedOption
  | withBaseContext (ctx : Option Ctx)
  | withLogger
  | withLocation (loc : String)
  | withSkipIfRunning
deriving DecidableEq, Repr

/-- Apply one option, as the option closures do. -/
def applyOption (s : Scheduler) : SchedOption → Scheduler
  | .withBaseContext none => s
  | .withBaseContext (some c) => { s with baseCtx := some c }
  | .withLogger => s
  | .withLocation loc => { s with location := loc }
  | .withSkipIfRunning => { s with skipIfRunning := true }

/-- The wrapper chain `New` installs: `cron.Recover` always, then
`cron.SkipIfStillRunning` when the option is set. -/
def buildChain (skip : Bool) : List JobWrapper :=
  [.recover] ++ (if skip then [.skipIfStillRunning] else [])

/-- `scheduler.New`. -/
def New (opts : List SchedOption) : Scheduler :=
  let s : Scheduler :=
    { cron := ⟨0, [], false⟩, location := "UTC", skipIfRunning := false, chain := [],
      jobs := [], started := false, baseCtx := some .background, runCtx := none,
      runCancel := none, cancelled := [], genCounter := 0 }
  let s := opts.foldl applyOption s
  { s with chain := buildChain s.skipIfRunning }

/-- `cron.AddFunc` / `cron.Schedule`: parse, allocate the next entry id
(ids start at 1), append the entry.  An entry added to a running cron gets
its first fire time from `Schedule.Next(now)`; otherwise `Next` stays the
zero time until `Start`. -/
def cronSchedule (c : CronState) (sched : CronSched) (body : Body) (now : Int) :
    Nat × CronState :=
  let id := c.nextID + 1
  let next := if c.running then schedNext sched now else 0
  let entries2 := c.entries ++ [⟨id, sched, next, 0, false, body⟩]
  (id, { c with nextID := id, entries := entries2 })

/-- `cron.AddFunc` on a head-free expression (the `Every` path: `@every`
descriptors never carry a timezone head, so this arm of `AddFunc` consults
no zone database and cannot panic): parse, then `Schedule` the entry. -/
def cronAdd (c : CronState) (spec : String) (body : Body) (now : Int) :
    Except String (Nat × CronState) :=
  match parseCronSpec spec with
  | .error e => .error e
  | .ok sched => .ok (cronSchedule c sched body now)

/-- `Scheduler.Every`: schedule at a fixed interval via the
`"@every " + interval.String()` descriptor. -/
def Scheduler.Every (s : Scheduler) (name : String) (interval : Int) (body : Body)
    (now : Int) : Except String Unit × Scheduler :=
  let spec := "@every " ++ fmtDuration interval
  match cronAdd s.cron spec body now with
  | .error e => (.error e, s)
  | .ok (id, c2) =>
    (.ok (), { s with cron := c2, jobs := mapInsert name ⟨name, spec, id⟩ s.jobs })

/-- `Scheduler.Remove`. -/
def Scheduler.Remove (s : Scheduler) (name : String) : Bool × Scheduler :=
  match s.jobs.lookup name with
  | none => (false, s)
  | some job =>
    let cron2 := { s.cron with entries := s.cron.entries.filter (fun e => e.id ≠ job.EntryID) }
    (true, { s with cron := cron2, jobs := mapErase name s.jobs })

/-- `Scheduler.Jobs`: the registry's values (Go map iteration order is
unspecified; the model yields them in the registry's list order). -/
def Scheduler.Jobs (s : Scheduler) : List Job :=
  s.jobs.map (fun kv => kv.2)

/-- `cron.Cron.Start` plus the first act of its `run` goroutine: compute
each entry's first fire time. -/
def cronStart (c : CronState) (now : Int) : CronState :=
  if c.running then c
  else
    let entries2 := c.entries.map (fun e => { e with next := schedNext e.sched now })
    { c with running := true, entries := entries2 }

/-- `Scheduler.Start`. -/
def Scheduler.Start (s : Scheduler) (now : Int) : Scheduler :=
  if s.started then s
  else
    { s with
        runCtx := some (.run s.genCounter)
        runCancel := some s.genCounter
        genCounter := s.genCounter + 1
        cron := cronStart s.cron now
        started := true }

/-- The completion token `Stop` returns: either a context that was cancelled
before being returned (the never-started branch), or the cron library's
drain context, satisfied once the job wait group reaches zero. -/
inductive StopToken
  | immediate
  | drain
deriving DecidableEq, Repr

/-- Is the token satisfied when `inFlight` dispatched executions have not
yet returned? -/
def StopToken.isSatisfied : StopToken → Nat → Bool
  | .immediate, _ => true
  | .drain, inFlight => inFlight == 0

/-- `cron.Cron.Stop` on the cron state: halt the run loop. -/
def cronStop (c : CronState) : CronState :=
  { c with running := false }

/-- `Scheduler.Stop`. -/
def Scheduler.Stop (s : Scheduler) : Scheduler × StopToken :=
  if !s.started then (s, .immediate)
  else
    let cancelled2 :=
      match s.runCancel with
      | some g => g :: s.cancelled
      | none => s.cancelled
    let s2 := { s with
        started := false
        runCancel := none
        cancelled := cancelled2
        cron := cronStop s.cron }
    (s2, .drain)

/-- `Scheduler.Running`. -/
def Scheduler.Running (s : Scheduler) : Bool :=
  s.started

/-- `Scheduler.baseContext`. -/
def Scheduler.baseContext (s : Scheduler) : Ctx :=
  match s.baseCtx with
  | some c => c
  | none => .background

/-- `Scheduler.jobContext`: the context handed to a job body. -/
def Scheduler.jobContext (s : Scheduler) : Ctx :=
  match s.runCtx with
  | some c => c
  | none =>
    match s.baseCtx with
    | some c => c
    | none => .background

/-- Outcome of dispatching one wrapped job: it completed (any fault already
recovered), it let a fault escape, or the overlap policy skipped it. -/
inductive RunResult
  | completed
  | panicked (msg : String)
  | skipped
deriving DecidableEq, Repr

/-- `cron.Chain.Then` applied to a body, then run: the first wrapper is the
outermost frame.  `Recover` turns an escaping fault into a normal return and
an error log; `SkipIfStillRunning` refuses to run while the previous
invocation is still in progress (`inProgress`) and logs an info event. -/
def runChainBody : List JobWrapper → Body → Bool → RunResult × List String
  | [], .ret, _ => (.completed, [])
  | [], .panics m, _ => (.panicked m, [])
  | .recover :: rest, b, inProgress =>
    match runChainBody rest b inProgress with
    | (.panicked m, logs) => (.completed, logs ++ ["recovered from job fault: " ++ m])
    | other => other
  | .skipIfStillRunning :: rest, b, inProgress =>
    if inProgress then (.skipped, ["skip"]) else runChainBody rest b inProgress

/-- One dispatched firing as the driver observes it. -/
structure Fire where
  id : Nat
  ctx : Ctx
  result : RunResult
  logs : List String
deriving DecidableEq, Repr

/-- Is an entry due at `now`?  The run loop only dispatches while running,
and never an entry whose fire time is the zero time. -/
def isDue (c : CronState) (e : Entry) (now : Int) : Bool :=
  c.running && decide (0 < e.next) && decide (e.next ≤ now)

/-- One wake-up of the cron run loop at `now`: dispatch every due entry
through the wrapper chain with the context `jobContext` yields (the wrapped
function calls `s.jobContext()` when it runs), then advance each dispatched
entry's fire time from its schedule. -/
def tick (s : Scheduler) (now : Int) : Scheduler × List Fire :=
  let ctx := s.jobContext
  let fires :=
    (s.cron.entries.filter (fun e => isDue s.cron e now)).map
      (fun e =>
        let (r, logs) := runChainBody s.chain e.body e.running
        Fire.mk e.id ctx r logs)
  let entries2 :=
    s.cron.entries.map (fun e =>
      if isDue s.cron e now then { e with prev := e.next, next := schedNext e.sched now }
      else e)
  let cron2 := { s.cron with entries := entries2 }
  ({ s with cron := cron2 }, fires)

/-- The dispatch/drain protocol around `Stop`: the cron run loop plus its
job wait group, which `Stop`'s returned context observes.  `dispatched` and
`completed` count executions ever started and ever returned; `inFlight` is
the wait-group counter. -/
structure RunSys where
  inFlight : Nat
  dispatched : Nat
  completed : Nat
  stopped : Bool
  ctxCancelled : Bool
deriving DecidableEq, Repr

/-- Events of the dispatch/drain protocol. -/
inductive REv
  | dispatch
  | complete
  | stop
deriving DecidableEq, Repr

/-- One event step.  A dispatch is impossible once stop was requested (the
run loop has exited); a completion needs an execution in flight; the stop
request cancels the run context and halts the loop. -/
def rstep (st : RunSys) : REv → Option RunSys
  | .dispatch =>
    if st.stopped then none
    else some { st with inFlight := st.inFlight + 1, dispatched := st.dispatched + 1 }
  | .complete =>
    if st.inFlight = 0 then none
    else some { st with inFlight := st.inFlight - 1, completed := st.completed + 1 }
  | .stop => some { st with stopped := true, ctxCancelled := true }

/-- The initial protocol state: nothing dispatched, not stopped. -/
def rinit : RunSys :=
  ⟨0, 0, 0, false, false⟩

/-- Run a sequence of protocol events. -/
def rrun : RunSys → List REv → Option RunSys
  | st, [] => some st
  | st, e :: evs =>
    match rstep st e with
    | none => none
    | some st2 => rrun st2 evs

/-- The completion token `Stop` returned is satisfied: stop was requested
and the wait group has drained. -/
def tokenDone (st : RunSys) : Bool :=
  st.stopped && st.inFlight == 0

/-- Registry wellformedness: every value's `Name` is its key (true of every
entry the scheduler ever writes). -/
@[reducible] def JobsWF (m : List (String × Job)) : Prop :=
  ∀ kv ∈ m, kv.2.Name = kv.1

/-- The next fire time the cron instance holds for a registered job name. -/
def nextFireOf (s : Scheduler) (name : String) : Option Int :=
  match s.jobs.lookup name with
  | none => none
  | some j => (s.cron.entries.find? (fun e => e.id == j.EntryID)).map (fun e => e.next)

/-- Example scheduler for the fault-isolation scenario: a job whose body
faults and an independent job, both due one second after start. -/
def sPanicDemo : Scheduler :=
  (((((New []).Every "boom-job" 1000000000 (.panics "boom") 0).2).Every
      "steady-job" 1000000000 .ret 0).2).Start 0

/-- Example scheduler with one five-second interval job, not yet started. -/
def sEveryDemo : Scheduler :=
  ((New []).Every "a" 5000000000 .ret 0).2

/-- `applyOption` never touches the started flag. -/
theorem applyOption_started (s : Scheduler) (o : SchedOption) :
    (applyOption s o).started = s.started := by
  cases o with
  | withBaseContext c => cases c <;> rfl
  | withLogger => rfl
  | withLocation loc => rfl
  | withSkipIfRunning => rfl

/-- Folding the option list never touches the started flag. -/
theorem foldl_applyOption_started (opts : List SchedOption) :
    ∀ s : Scheduler, (opts.foldl applyOption s).started = s.started := by
  induction opts with
  | nil => intro s; rfl
  | cons o rest ih => intro s; rw [List.foldl_cons, ih, applyOption_started]

/-- Claim C8: Start is idempotent — a second Start leaves the state (hence
the registered jobs) exactly as after the first, and the scheduler reports
Running; a fresh scheduler is not running, nor is one after Stop. -/
theorem start_idempotent_lifecycle :
    (∀ (s : Scheduler) (now1 now2 : Int), (s.Start now1).Start now2 = s.Start now1) ∧
    (∀ (s : Scheduler) (now1 : Int), (s.Start now1).Running = true) ∧
    (∀ (s : Scheduler) (now1 now2 : Int),
      ((s.Start now1).Start now2).Jobs = (s.Start now1).Jobs) ∧
    (∀ opts : List SchedOption, (New opts).Running = false) ∧
    (∀ s : Scheduler, (s.Stop).1.Running = false) := by
  have hstart : ∀ (s : Scheduler) (now1 now2 : Int), (s.Start now1).Start now2 = s.Start now1 := by
    intro s now1 now2
    by_cases h : s.started <;> simp [Scheduler.Start, h]
  refine ⟨hstart, ?_, ?_, ?_, ?_⟩
  · intro s now1
    by_cases h : s.started <;> simp [Scheduler.Start, Scheduler.Running, h]
  · intro s now1 now2
    rw [hstart]
  · intro opts
    simp [New, Scheduler.Running, foldl_applyOption_started]
  · intro s
    by_cases h : s.started <;> simp [Scheduler.Stop, Scheduler.Running, h]

/-- Claim C7: Stop on a scheduler in the Stopped state (never started or
already stopped) leaves the state unchanged and returns an
already-satisfied completion token, and so does a second Stop. -/
theorem stop_on_stopped_immediate (s : Scheduler) (n : Nat) (h : s.started = false) :
    (s.Stop).2.isSatisfied n = true ∧ (s.Stop).1 = s ∧
      ((s.Stop).1.Stop).2.isSatisfied n = true := by
  simp [Scheduler.Stop, h, StopToken.isSatisfied]

/-- Witness for C7 at a never-started scheduler. -/
theorem stop_on_stopped_immediate_witness :
    ((New []).Stop).2.isSatisfied 7 = true ∧ ((New []).Stop).1 = New [] ∧
      (((New []).Stop).1.Stop).2.isSatisfied 7 = true :=
  stop_on_stopped_immediate (New []) 7 rfl

/-- Looking a key up in a map it was erased from finds nothing. -/
theorem lookup_mapErase_none (m : List (String × Job)) (k : String) :
    (mapErase k m).lookup k = none := by
  induction m with
  | nil => rfl
  | cons kv rest ih =>
    rw [mapErase, List.filter_cons]
    by_cases h : kv.1 = k
    · simpa [h, mapErase] using ih
    · have hbeq : (k == kv.1) = false := beq_eq_false_iff_ne.mpr (Ne.symm h)
      simpa [h, List.lookup, hbeq, mapErase] using ih

/-- Claim C9: Remove returns true exactly when the name is registered; an
absent name leaves the scheduler untouched, a present one has its entry
deleted from the registry. -/
theorem remove_true_iff_present (s : Scheduler) (name : String) :
    ((s.Remove name).1 = (s.jobs.lookup name).isSome) ∧
      (s.jobs.lookup name = none → (s.Remove name).2 = s) ∧
      (∀ j, s.jobs.lookup name = some j →
        (s.Remove name).2.jobs = mapErase name s.jobs ∧
          (s.Remove name).2.jobs.lookup name = none) := by
  refine ⟨?_, ?_, ?_⟩
  · cases h : s.jobs.lookup name <;> simp [Scheduler.Remove, h]
  · intro h; simp [Scheduler.Remove, h]
  · intro j h
    simp [Scheduler.Remove, h, lookup_mapErase_none]

/-- Witness for C9: removing a registered job returns true; removing an
absent name returns false and changes nothing. -/
theorem remove_true_iff_present_witness :
    ((((New []).Every "a" 60000000000 .ret 0).2.Remove "a").1 = true) ∧
      (((New []).Remove "ghost").2 = New []) := by
  have h1 := remove_true_iff_present (((New []).Every "a" 60000000000 .ret 0).2) "a"
  have h2 := remove_true_iff_present (New []) "ghost"
  exact ⟨by rw [h1.1]; rfl, h2.2.1 rfl⟩

/-- Claim C10: the context handed to a job body is the run context when one
is present, else the configured base context, else the background context —
never nil — and `WithBaseContext(nil)` is a no-op, leaving the default
background base context in place. -/
theorem job_context_selection :
    (∀ (s : Scheduler) (c : Ctx), s.runCtx = some c → s.jobContext = c) ∧
    (∀ (s : Scheduler) (b : Ctx), s.runCtx = none → s.baseCtx = some b → s.jobContext = b) ∧
    (∀ s : Scheduler, s.runCtx = none → s.baseCtx = none → s.jobContext = .background) ∧
    (∀ s : Scheduler, applyOption s (.withBaseContext none) = s) ∧
    ((New [SchedOption.withBaseContext none]).baseCtx = some .background) := by
  refine ⟨?_, ?_, ?_, ?_, rfl⟩ <;> intros <;> simp [Scheduler.jobContext, applyOption, *]

/-- Witness for C10: a scheduler built with an external base context hands
that context to job bodies; a default scheduler hands out background. -/
theorem job_context_selection_witness :
    (New [SchedOption.withBaseContext (some (.external 3))]).jobContext = .external 3 ∧
      (New []).jobContext = .background :=
  ⟨job_context_selection.2.1 _ (.external 3) rfl rfl,
   job_context_selection.2.1 _ .background rfl rfl⟩

/-- Inserting a binding makes it the one the key looks up to. -/
theorem lookup_mapInsert_self (m : List (String × Job)) (k : String) (v : Job) :
    (mapInsert k v m).lookup k = some v := by
  simp [mapInsert, List.lookup]

/-- A key that looks up to nothing is no entry's key, so erasing-style
filtering keeps the whole map. -/
theorem filter_ne_of_lookup_none (m : List (String × Job)) (k : String) :
    m.lookup k = none → m.filter (fun kv => kv.1 ≠ k) = m := by
  induction m with
  | nil => intro _; rfl
  | cons kv rest ih =>
    intro h
    rw [List.filter_cons]
    cases hbeq : (k == kv.1) with
    | true => simp [List.lookup, hbeq] at h
    | false =>
      have hne : kv.1 ≠ k := fun he => by simp [he] at hbeq
      have htail : rest.lookup k = none := by
        simpa [List.lookup, hbeq] using h
      have hdec : (decide (kv.1 ≠ k)) = true := by simp [hne]
      simp only [hdec, if_true, ih htail]

/-- Counterexample to claim C2: registering with a zero interval returns
success and the registry grows from zero to one entry. -/
theorem nonpositive_interval_accepted :
    ((New []).Every "zero-job" 0 .ret 0).1 = .ok () ∧
      ((New []).Every "zero-job" 0 .ret 0).2.Jobs.length = 1 ∧
      (New []).Jobs.length = 0 :=
  ⟨rfl, rfl, rfl⟩

/-- Claim C2 as amended: a non-positive interval is not rejected — the cron
library parses `"@every " + interval.String()` for any duration and clamps
delays below one second up to one second — and the job is registered (one
more list entry when the name is fresh). -/
theorem nonpositive_interval_registers :
    (∀ (s : Scheduler) (name : String) (d : Int) (b : Body) (now : Int) (sch : CronSched),
      d ≤ 0 →
      parseCronSpec ("@every " ++ fmtDuration d) = .ok sch →
      (s.Every name d b now).1 = .ok () ∧
        (s.Every name d b now).2.jobs.lookup name =
          some ⟨name, "@every " ++ fmtDuration d, s.cron.nextID + 1⟩ ∧
        (s.jobs.lookup name = none →
          (s.Every name d b now).2.jobs.length = s.jobs.length + 1)) ∧
    (∀ d2 : Int, d2 ≤ 0 → cronEvery d2 = 1000000000) := by
  constructor
  · intro s name d b now sch _ hp
    refine ⟨by simp [Scheduler.Every, cronAdd, hp], ?_, ?_⟩
    · simp only [Scheduler.Every, cronAdd, hp]
      exact lookup_mapInsert_self s.jobs name _
    · intro hnone
      simp only [Scheduler.Every, cronAdd, hp, mapInsert]
      rw [List.length_cons, filter_ne_of_lookup_none s.jobs name hnone]
  · intro d2 h
    have hlt : d2 < 1000000000 := by omega
    simp [cronEvery, hlt]

/-- Witness for C2 as amended at interval `-1m`. -/
theorem nonpositive_interval_registers_witness :
    ((New []).Every "neg-job" (-60000000000) .ret 0).1 = .ok () ∧
      ((New []).Every "neg-job" (-60000000000) .ret 0).2.jobs.lookup "neg-job" =
        some ⟨"neg-job", "@every " ++ fmtDuration (-60000000000), 1⟩ ∧
      ((New []).jobs.lookup "neg-job" = none →
        ((New []).Every "neg-job" (-60000000000) .ret 0).2.jobs.length =
          (New []).jobs.length + 1) := by
  have hp : parseCronSpec ("@every " ++ fmtDuration (-60000000000)) =
      .ok (.const 1000000000) := rfl
  exact nonpositive_interval_registers.1 (New []) "neg-job" (-60000000000) .ret 0
    (.const 1000000000) (by omega) hp

/-- Counterexample to claim C3: two schedulers whose `Jobs` snapshots are
equal can hold different next fire times, so the summary cannot carry the
next fire time — it carries the cron entry id instead. -/
theorem jobs_snapshot_lacks_next_fire :
    sEveryDemo.Jobs = (sEveryDemo.Start 100000000000).Jobs ∧
      nextFireOf sEveryDemo "a" ≠ nextFireOf (sEveryDemo.Start 100000000000) "a" :=
  ⟨rfl, by decide⟩

/-- Claim C3 as amended: every element of the `Jobs` listing is a registry
value — a record of the job's name, its schedule string and its cron entry
id — and under registry wellformedness it is listed under its own name. -/
theorem jobs_lists_registry_values :
    (∀ s : Scheduler, s.Jobs = s.jobs.map (fun kv => kv.2)) ∧
    (∀ s : Scheduler, JobsWF s.jobs → ∀ j ∈ s.Jobs, (j.Name, j) ∈ s.jobs) := by
  refine ⟨fun s => rfl, ?_⟩
  intro s hwf j hj
  rcases List.mem_map.mp hj with ⟨kv, hkv, rfl⟩
  have hname := hwf kv hkv
  rw [hname]
  simpa using hkv

/-- Witness for C3 as amended at a one-job scheduler. -/
theorem jobs_lists_registry_values_witness :
    sEveryDemo.Jobs = sEveryDemo.jobs.map (fun kv => kv.2) ∧
      (("a", (⟨"a", "@every 5s", 1⟩ : Job)) ∈ sEveryDemo.jobs) := by
  refine ⟨jobs_lists_registry_values.1 sEveryDemo, ?_⟩
  exact jobs_lists_registry_values.2 sEveryDemo (by decide)
    (⟨"a", "@every 5s", 1⟩ : Job) (by decide)

/-- Invariant of the dispatch/drain protocol: the wait-group counter is the
dispatched-minus-completed difference, and once stopped the run context is
cancelled. -/
theorem rrun_invariant (evs : List REv) :
    ∀ st0 st : RunSys, rrun st0 evs = some st →
      st0.dispatched = st0.completed + st0.inFlight →
      (st0.stopped = true → st0.ctxCancelled = true) →
      st.dispatched = st.completed + st.inFlight ∧
        (st.stopped = true → st.ctxCancelled = true) := by
  induction evs with
  | nil =>
    intro st0 st h h1 h2
    simp only [rrun, Option.some.injEq] at h
    subst h
    exact ⟨h1, h2⟩
  | cons e rest ih =>
    intro st0 st h h1 h2
    cases e with
    | dispatch =>
      by_cases hs : st0.stopped
      · simp [rrun, rstep, hs] at h
      · simp only [rrun, rstep, hs, if_false, Bool.false_eq_true] at h
        refine ih _ st h (by simp; omega) (by simp)
    | complete =>
      by_cases hz : st0.inFlight = 0
      · simp [rrun, rstep, hz] at h
      · simp only [rrun, rstep, hz, if_false] at h
        refine ih _ st h (by simp; omega) (by simpa using h2)
    | stop =>
      simp only [rrun, rstep] at h
      refine ih _ st h (by simpa using h1) (by simp)

/-- Claim C4: once stop is requested no further dispatch is possible and the
run context is cancelled, and the returned completion token becomes
satisfied only when every dispatched execution has returned; on the
scheduler itself, Stop invokes the run context's cancel function and clears
it. -/
theorem stop_cancels_and_drains :
    (∀ (evs : List REv) (st : RunSys), rrun rinit evs = some st →
      (st.stopped = true → rstep st .dispatch = none) ∧
      (st.stopped = true → st.ctxCancelled = true) ∧
      (tokenDone st = true → st.completed = st.dispatched ∧ st.inFlight = 0)) ∧
    (∀ (s : Scheduler) (g : Nat), s.started = true → s.runCancel = some g →
      g ∈ (s.Stop).1.cancelled ∧ (s.Stop).1.runCancel = none) := by
  constructor
  · intro evs st h
    have hinv := rrun_invariant evs rinit st h rfl (by intro hh; cases hh)
    refine ⟨?_, hinv.2, ?_⟩
    · intro hs
      simp [rstep, hs]
    · intro ht
      have hts : st.stopped = true ∧ st.inFlight = 0 := by
        simpa [tokenDone] using ht
      have har := hinv.1
      exact ⟨by omega, hts.2⟩
  · intro s g hs hg
    constructor
    · simp [Scheduler.Stop, hs, hg]
    · simp [Scheduler.Stop, hs]

/-- Witness for C4: after dispatch, completion and stop, the token is
satisfied and no dispatch is possible; a started scheduler's Stop records
the cancel of its run context. -/
theorem stop_cancels_and_drains_witness :
    rstep ⟨0, 1, 1, true, true⟩ .dispatch = none ∧
      0 ∈ (((New []).Start 0).Stop).1.cancelled := by
  have h := stop_cancels_and_drains
  refine ⟨(h.1 [.dispatch, .complete, .stop] ⟨0, 1, 1, true, true⟩ rfl).1 rfl, ?_⟩
  exact (h.2 ((New []).Start 0) 0 rfl rfl).1

/-- With `Recover` outermost, no fault escapes a dispatched job. -/
theorem runChain_recover_no_panic (rest : List JobWrapper) (b : Body) (ip : Bool)
    (m : String) : (runChainBody (.recover :: rest) b ip).1 ≠ .panicked m := by
  simp only [runChainBody]
  rcases h : runChainBody rest b ip with ⟨r, logs⟩
  cases r <;> simp

/-- Claim C5: the chain `New` installs always begins with `Recover`, so a
firing whose body faults completes with the fault logged instead of
propagating; the tick leaves the started flag and the registry untouched,
and every due entry — the faulting job's neighbours included — is
dispatched. -/
theorem fault_isolated_other_jobs_fire :
    (∀ opts : List SchedOption, ∃ sk2 : Bool, (New opts).chain = buildChain sk2) ∧
    (∀ (sk : Bool) (s : Scheduler) (now : Int), s.chain = buildChain sk →
      (∀ f ∈ (tick s now).2, ∀ m, f.result ≠ .panicked m) ∧
      ((tick s now).1.started = s.started) ∧
      ((tick s now).1.jobs = s.jobs) ∧
      (∀ e ∈ s.cron.entries, isDue s.cron e now = true →
        ∃ f ∈ (tick s now).2, f.id = e.id) ∧
      (∀ e ∈ s.cron.entries, isDue s.cron e now = true → ∀ m, e.body = .panics m →
        e.running = false →
        ∃ f ∈ (tick s now).2, f.id = e.id ∧ f.result = .completed ∧
          ("recovered from job fault: " ++ m) ∈ f.logs)) := by
  constructor
  · intro opts
    exact ⟨_, rfl⟩
  · intro sk s now h
    refine ⟨?_, rfl, rfl, ?_, ?_⟩
    · intro f hf m
      simp only [tick] at hf
      rcases List.mem_map.mp hf with ⟨e, he, rfl⟩
      rcases hrc : runChainBody s.chain e.body e.running with ⟨r, logs⟩
      have hne := runChain_recover_no_panic (if sk then [.skipIfStillRunning] else [])
        e.body e.running m
      rw [show (JobWrapper.recover :: (if sk then [.skipIfStillRunning] else [])) =
        buildChain sk from rfl, ← h, hrc] at hne
      simp only [hrc] at hne
      simpa using hne
    · intro e he hd
      rcases hrc : runChainBody s.chain e.body e.running with ⟨r, logs⟩
      refine ⟨Fire.mk e.id s.jobContext r logs, ?_, rfl⟩
      simp only [tick]
      exact List.mem_map.mpr ⟨e, List.mem_filter.mpr ⟨he, hd⟩, by rw [hrc]⟩
    · intro e he hd m hb hr
      have hrun : runChainBody s.chain e.body e.running =
          (.completed, ["recovered from job fault: " ++ m]) := by
        rw [h, hb, hr]
        cases sk <;> rfl
      refine ⟨Fire.mk e.id s.jobContext .completed ["recovered from job fault: " ++ m],
        ?_, rfl, rfl, by simp⟩
      simp only [tick]
      exact List.mem_map.mpr ⟨e, List.mem_filter.mpr ⟨he, hd⟩, by rw [hrun]⟩

/-- Witness for C5: in the two-job demo scheduler, the faulting job's firing
completes with the fault logged, and the independent job fires in the same
tick. -/
theorem fault_isolated_witness :
    (∃ f ∈ (tick sPanicDemo 2000000000).2, f.id = 1 ∧ f.result = .completed ∧
      ("recovered from job fault: " ++ "boom") ∈ f.logs) ∧
    (∃ f ∈ (tick sPanicDemo 2000000000).2, f.id = 2) := by
  have h := (fault_isolated_other_jobs_fire.2 false sPanicDemo 2000000000 rfl)
  constructor
  · exact h.2.2.2.2 ⟨1, .const 1000000000, 1000000000, 0, false, .panics "boom"⟩
      (by decide) (by decide) "boom" rfl rfl
  · exact h.2.2.2.1 ⟨2, .const 1000000000, 1000000000, 0, false, .ret⟩
      (by decide) (by decide)
